import Mathlib

/-!
Verification development for `nanocode.py`, a minimal terminal coding agent.
The Python source is shallowly embedded: pure string manipulation is
translated to functions on `List Char` / `String`, the file system and the
operating-system facilities (glob enumeration, mtimes, regex compilation,
subprocess execution) are an explicit `World` state threaded through the
tool implementations, and exceptions are `Except` values.
-/

namespace Nanocode

/-- Boolean test that `p` is a prefix of `s`, on character lists; mirrors
Python substring matching anchored at position 0. -/
def listPrefixOf : List Char → List Char → Bool
  | [], _ => true
  | _ :: _, [] => false
  | a :: as, b :: bs => a == b && listPrefixOf as bs

/-- Python `text.count(sub)`: number of non-overlapping occurrences of
`pat` in `s`, scanning left to right; for the empty pattern Python counts
`len(s) + 1`. -/
def pyCount (s pat : List Char) : Nat :=
  if h : pat = [] then s.length + 1
  else
    match s with
    | [] => 0
    | c :: t =>
      if listPrefixOf pat (c :: t) then
        1 + pyCount ((c :: t).drop pat.length) pat
      else
        pyCount t pat
termination_by s.length
decreasing_by
  · have hp : 0 < pat.length := List.length_pos.mpr h
    simp only [List.length_drop, List.length_cons]
    omega
  · simp [Nat.lt_succ_self]

/-- Python `sub in text`: substring membership test. -/
def pyContains (s pat : List Char) : Bool :=
  if listPrefixOf pat s then true
  else
    match s with
    | [] => false
    | _ :: t => pyContains t pat

/-- Python `text.replace(old, new, 1)`: replace the first (leftmost)
occurrence of `pat` by `rep`; for the empty pattern Python prepends `rep`. -/
def pyReplaceFirst (s pat rep : List Char) : List Char :=
  if pat = [] then rep ++ s
  else
    match s with
    | [] => []
    | c :: t =>
      if listPrefixOf pat (c :: t) then
        rep ++ (c :: t).drop pat.length
      else
        c :: pyReplaceFirst t pat rep
termination_by s.length
decreasing_by
  simp [Nat.lt_succ_self]

/-- Python `text.replace(old, new)`: replace every non-overlapping
occurrence of `pat` by `rep`, scanning left to right; for the empty
pattern Python inserts `rep` at every character boundary. -/
def pyReplaceAll (s pat rep : List Char) : List Char :=
  if h : pat = [] then rep ++ s.flatMap (fun c => c :: rep)
  else
    match s with
    | [] => []
    | c :: t =>
      if listPrefixOf pat (c :: t) then
        rep ++ pyReplaceAll ((c :: t).drop pat.length) pat rep
      else
        c :: pyReplaceAll t pat rep
termination_by s.length
decreasing_by
  · have hp : 0 < pat.length := List.length_pos.mpr h
    simp only [List.length_drop, List.length_cons]
    omega
  · simp [Nat.lt_succ_self]

/-- Character lists joined with a separator between consecutive parts. -/
def interList (sep : List Char) : List (List Char) → List Char
  | [] => []
  | [p] => p
  | p :: q :: ps => p ++ sep ++ interList sep (q :: ps)

theorem listPrefixOf_true_iff (p s : List Char) :
    listPrefixOf p s = true ↔ ∃ t, s = p ++ t := by
  induction p generalizing s with
  | nil => simp [listPrefixOf]
  | cons a as ih =>
    cases s with
    | nil => simp [listPrefixOf]
    | cons b bs =>
      simp only [listPrefixOf, Bool.and_eq_true, beq_iff_eq, ih, List.cons_append]
      constructor
      · rintro ⟨rfl, t, rfl⟩; exact ⟨t, rfl⟩
      · rintro ⟨t, ht⟩
        injection ht with h1 h2
        exact ⟨h1.symm, t, h2⟩

theorem match_decomp {pat s : List Char} (h : listPrefixOf pat s = true) :
    s = pat ++ s.drop pat.length := by
  obtain ⟨t, rfl⟩ := (listPrefixOf_true_iff pat s).1 h
  rw [List.drop_left]

theorem pyCount_nil {pat : List Char} (h : pat ≠ []) : pyCount [] pat = 0 := by
  rw [pyCount]; simp [h]

theorem pyCount_cons_match {pat : List Char} (h : pat ≠ []) {c : Char} {t : List Char}
    (hp : listPrefixOf pat (c :: t) = true) :
    pyCount (c :: t) pat = 1 + pyCount ((c :: t).drop pat.length) pat := by
  rw [pyCount]; simp [h, hp]

theorem pyCount_cons_miss {pat : List Char} (h : pat ≠ []) {c : Char} {t : List Char}
    (hp : listPrefixOf pat (c :: t) = false) :
    pyCount (c :: t) pat = pyCount t pat := by
  rw [pyCount]; simp [h, hp]

theorem pyContains_of_match {pat s : List Char} (h : listPrefixOf pat s = true) :
    pyContains s pat = true := by
  cases s <;> (rw [pyContains]; simp [h])

theorem pyContains_cons_miss {pat : List Char} {c : Char} {t : List Char}
    (hp : listPrefixOf pat (c :: t) = false) :
    pyContains (c :: t) pat = pyContains t pat := by
  rw [pyContains]; simp [hp]

theorem pyContains_nil_iff (pat : List Char) :
    pyContains [] pat = true ↔ pat = [] := by
  rw [pyContains]
  cases pat with
  | nil => simp [listPrefixOf]
  | cons a as => simp [listPrefixOf]

theorem pyReplaceFirst_pat_nil (s rep : List Char) :
    pyReplaceFirst s [] rep = rep ++ s := by
  rw [pyReplaceFirst.eq_def]; simp

theorem pyReplaceFirst_match {pat : List Char} (h : pat ≠ []) {c : Char} {t : List Char}
    (hp : listPrefixOf pat (c :: t) = true) (rep : List Char) :
    pyReplaceFirst (c :: t) pat rep = rep ++ (c :: t).drop pat.length := by
  rw [pyReplaceFirst]; simp [h, hp]

theorem pyReplaceFirst_cons_miss {pat : List Char} (h : pat ≠ []) {c : Char}
    {t : List Char} (hp : listPrefixOf pat (c :: t) = false) (rep : List Char) :
    pyReplaceFirst (c :: t) pat rep = c :: pyReplaceFirst t pat rep := by
  rw [pyReplaceFirst]; simp [h, hp]

theorem pyReplaceAll_pat_nil (s rep : List Char) :
    pyReplaceAll s [] rep = rep ++ s.flatMap (fun c => c :: rep) := by
  rw [pyReplaceAll.eq_def]; simp

theorem pyReplaceAll_nil {pat : List Char} (h : pat ≠ []) (rep : List Char) :
    pyReplaceAll [] pat rep = [] := by
  rw [pyReplaceAll]; simp [h]

theorem pyReplaceAll_match {pat : List Char} (h : pat ≠ []) {c : Char} {t : List Char}
    (hp : listPrefixOf pat (c :: t) = true) (rep : List Char) :
    pyReplaceAll (c :: t) pat rep = rep ++ pyReplaceAll ((c :: t).drop pat.length) pat rep := by
  rw [pyReplaceAll]; simp [h, hp]

theorem pyReplaceAll_cons_miss {pat : List Char} (h : pat ≠ []) {c : Char}
    {t : List Char} (hp : listPrefixOf pat (c :: t) = false) (rep : List Char) :
    pyReplaceAll (c :: t) pat rep = c :: pyReplaceAll t pat rep := by
  rw [pyReplaceAll]; simp [h, hp]

theorem pyContains_of_count_pos :
    ∀ n s pat, List.length s ≤ n → 0 < pyCount s pat → pyContains s pat = true := by
  intro n
  induction n with
  | zero =>
    intro s pat hle hc
    have hs : s = [] := List.length_eq_zero.mp (Nat.le_zero.mp hle)
    subst hs
    by_cases hp : pat = []
    · subst hp; exact (pyContains_nil_iff []).2 rfl
    · rw [pyCount_nil hp] at hc; exact absurd hc (by simp)
  | succ n ih =>
    intro s pat hle hc
    by_cases hp : pat = []
    · subst hp
      cases s with
      | nil => exact (pyContains_nil_iff []).2 rfl
      | cons c t =>
        exact pyContains_of_match (show listPrefixOf [] (c :: t) = true from rfl)
    · cases s with
      | nil => rw [pyCount_nil hp] at hc; exact absurd hc (by simp)
      | cons c t =>
        by_cases hpre : listPrefixOf pat (c :: t) = true
        · exact pyContains_of_match hpre
        · have hpf : listPrefixOf pat (c :: t) = false := Bool.eq_false_iff.2 hpre
          rw [pyContains_cons_miss hpf]
          rw [pyCount_cons_miss hp hpf] at hc
          exact ih t pat (by simpa using Nat.le_of_succ_le_succ hle) hc

theorem pyReplaceFirst_decomp :
    ∀ s pat rep, pyContains s pat = true →
      ∃ a b, s = a ++ pat ++ b ∧ pyReplaceFirst s pat rep = a ++ rep ++ b := by
  intro s
  induction s with
  | nil =>
    intro pat rep hc
    have hp : pat = [] := (pyContains_nil_iff pat).1 hc
    subst hp
    exact ⟨[], [], rfl, by rw [pyReplaceFirst_pat_nil]; simp⟩
  | cons c t ih =>
    intro pat rep hc
    by_cases hp : pat = []
    · subst hp
      exact ⟨[], c :: t, rfl, by rw [pyReplaceFirst_pat_nil]; simp⟩
    · by_cases hpre : listPrefixOf pat (c :: t) = true
      · refine ⟨[], (c :: t).drop pat.length, ?_, ?_⟩
        · simpa using match_decomp hpre
        · rw [pyReplaceFirst_match hp hpre]; simp
      · have hpf : listPrefixOf pat (c :: t) = false := Bool.eq_false_iff.2 hpre
        rw [pyContains_cons_miss hpf] at hc
        obtain ⟨a, b, hab, hrep⟩ := ih pat rep hc
        exact ⟨c :: a, b, by simp [hab], by rw [pyReplaceFirst_cons_miss hp hpf, hrep]; simp⟩

theorem interList_cons_of_ne (sep p : List Char) {ps : List (List Char)} (h : ps ≠ []) :
    interList sep (p :: ps) = p ++ sep ++ interList sep ps := by
  cases ps with
  | nil => exact absurd rfl h
  | cons q qs => rfl

theorem interList_cons_head (sep : List Char) (c : Char) (p : List Char)
    (ps : List (List Char)) :
    interList sep ((c :: p) :: ps) = c :: interList sep (p :: ps) := by
  cases ps with
  | nil => rfl
  | cons q qs => rfl

/-- Per-character parts list used to describe Python replace with an empty
pattern: one singleton part per character, with empty parts at both ends
supplied by the caller. -/
def epartsTail : List Char → List (List Char)
  | [] => [[]]
  | c :: t => [c] :: epartsTail t

theorem epartsTail_ne_nil (s : List Char) : epartsTail s ≠ [] := by
  cases s <;> simp [epartsTail]

theorem epartsTail_length (s : List Char) : (epartsTail s).length = s.length + 1 := by
  induction s with
  | nil => rfl
  | cons c t ih => simp [epartsTail, ih]

theorem interList_epartsTail (rep : List Char) (s : List Char) :
    interList rep (epartsTail s) = s.flatMap (fun c => c :: rep) := by
  induction s with
  | nil => rfl
  | cons c t ih =>
    rw [epartsTail, interList_cons_head, interList_cons_of_ne rep [] (epartsTail_ne_nil t)]
    simp [ih]

theorem flatMap_singleton_id (s : List Char) : s.flatMap (fun c => [c]) = s := by
  induction s with
  | nil => rfl
  | cons c t ih => simp [ih]

theorem pyCount_pat_nil (s : List Char) : pyCount s [] = s.length + 1 := by
  rw [pyCount.eq_def]; simp

/-- Python replace-all as an intercalation: the content splits into
`count + 1` parts separated by the pattern, and the replacement joins the
same parts with the new string instead. -/
theorem pyReplaceAll_decomp :
    ∀ n s pat rep, List.length s ≤ n →
      ∃ parts : List (List Char), parts.length = pyCount s pat + 1 ∧
        s = interList pat parts ∧ pyReplaceAll s pat rep = interList rep parts := by
  intro n
  induction n with
  | zero =>
    intro s pat rep hle
    have hs : s = [] := List.length_eq_zero.mp (Nat.le_zero.mp hle)
    subst hs
    by_cases hp : pat = []
    · subst hp
      refine ⟨[[], []], by simp [pyCount_pat_nil], rfl, ?_⟩
      rw [pyReplaceAll_pat_nil]
      simp [interList]
    · exact ⟨[[]], by simp [pyCount_nil hp], rfl, by rw [pyReplaceAll_nil hp]; rfl⟩
  | succ n ih =>
    intro s pat rep hle
    by_cases hp : pat = []
    · subst hp
      refine ⟨[] :: epartsTail s, ?_, ?_, ?_⟩
      · simp [epartsTail_length, pyCount_pat_nil]
      · rw [interList_cons_of_ne [] [] (epartsTail_ne_nil s), interList_epartsTail]
        simp [flatMap_singleton_id]
      · rw [pyReplaceAll_pat_nil, interList_cons_of_ne rep [] (epartsTail_ne_nil s),
          interList_epartsTail]
        simp
    · cases s with
      | nil =>
        exact ⟨[[]], by simp [pyCount_nil hp], rfl, by rw [pyReplaceAll_nil hp]; rfl⟩
      | cons c t =>
        by_cases hpre : listPrefixOf pat (c :: t) = true
        · have hd : ((c :: t).drop pat.length).length ≤ n := by
            have hplen : 0 < pat.length := List.length_pos.mpr hp
            simp only [List.length_drop, List.length_cons]
            have := Nat.le_of_succ_le_succ hle
            omega
          obtain ⟨parts', hlen, hintro, hrep⟩ := ih ((c :: t).drop pat.length) pat rep hd
          have hne : parts' ≠ [] := by
            intro h0; rw [h0] at hlen; simp at hlen
          refine ⟨[] :: parts', by simp [hlen, pyCount_cons_match hp hpre, Nat.add_comm], ?_, ?_⟩
          · rw [interList_cons_of_ne pat [] hne, ← hintro]
            simpa using match_decomp hpre
          · rw [pyReplaceAll_match hp hpre, interList_cons_of_ne rep [] hne, ← hrep]
            simp
        · have hpf : listPrefixOf pat (c :: t) = false := Bool.eq_false_iff.2 hpre
          obtain ⟨parts', hlen, hintro, hrep⟩ := ih t pat rep (Nat.le_of_succ_le_succ hle)
          cases parts' with
          | nil => simp at hlen
          | cons p0 rest =>
            refine ⟨(c :: p0) :: rest, by simpa [pyCount_cons_miss hp hpf] using hlen,
              ?_, ?_⟩
            · rw [interList_cons_head, ← hintro]
            · rw [pyReplaceAll_cons_miss hp hpf, interList_cons_head, ← hrep]

/-- Accumulator for `pyLines`: splits characters into lines, keeping the
trailing newline on each line, like Python `readlines` / file iteration. -/
def pyLinesAux (acc : List Char) : List Char → List (List Char)
  | [] => if acc.isEmpty then [] else [acc.reverse]
  | c :: t =>
    if c = '\n' then (acc.reverse ++ ['\n']) :: pyLinesAux [] t
    else pyLinesAux (c :: acc) t

/-- Python `open(path).readlines()` applied to already-read text: the list
of lines, each keeping its trailing newline (the final line may lack one);
empty text gives no lines. -/
def pyLines (s : String) : List String :=
  (pyLinesAux [] s.data).map (fun l => String.mk l)

/-- Python slice `l[a:b]` with possibly negative bounds: negative indices
count from the end, bounds are clamped, and an empty range gives `[]`. -/
def pySlice {α : Type} (l : List α) (a b : Int) : List α :=
  let n := l.length
  let lo : Nat := if a < 0 then ((n : Int) + a).toNat else min a.toNat n
  let hi : Nat := if b < 0 then ((n : Int) + b).toNat else min b.toNat n
  (l.take hi).drop lo

/-- Characters Python `str.strip` removes. -/
def isPyWs (c : Char) : Bool :=
  c = ' ' || c = '\t' || c = '\n' || c = '\r' || c = '\x0B' || c = '\x0C'

/-- Python `line.rstrip()`: drop trailing whitespace. -/
def pyRstrip (s : String) : String :=
  String.mk ((s.data.reverse.dropWhile isPyWs).reverse)

/-- Python `text.strip()`: drop leading and trailing whitespace. -/
def pyStrip (s : String) : String :=
  String.mk (((s.data.dropWhile isPyWs).reverse.dropWhile isPyWs).reverse)

/-- Python format spec `{n:4}` on an integer: the decimal rendering,
left-padded with spaces to a minimum width of four characters. -/
def padWidth4 (s : String) : String :=
  if s.length < 4 then String.mk (List.replicate (4 - s.length) ' ') ++ s else s

/-- Python `text.count(sub)` on strings. -/
def pyCountS (s pat : String) : Nat := pyCount s.data pat.data

/-- Python `sub in text` on strings. -/
def pyContainsS (s pat : String) : Bool := pyContains s.data pat.data

/-- Python `text.replace(old, new, 1)` on strings. -/
def pyReplaceFirstS (s pat rep : String) : String :=
  String.mk (pyReplaceFirst s.data pat.data rep.data)

/-- Python `text.replace(old, new)` on strings. -/
def pyReplaceAllS (s pat rep : String) : String :=
  String.mk (pyReplaceAll s.data pat.data rep.data)

/-- Untyped values as they arrive from decoded service JSON: the shapes the
Python code distinguishes (`dict`, `str`, `None`, and the rest). Floating
point numbers are outside the model; JSON numbers are integers here. -/
inductive PyVal where
  | dict (entries : List (String × PyVal))
  | str (s : String)
  | num (n : Int)
  | bool (b : Bool)
  | list (xs : List PyVal)
  | none

/-- Python truthiness of a value, as used by `args.get("all")`. -/
def pyTruthy : PyVal → Bool
  | .dict m => !m.isEmpty
  | .str s => !(s == "")
  | .num n => !(n == 0)
  | .bool b => b
  | .list xs => !xs.isEmpty
  | .none => false

/-- Python `type(v).__name__` for the shapes in the model. -/
def pyTypeName : PyVal → String
  | .dict _ => "dict"
  | .str _ => "str"
  | .num _ => "int"
  | .bool _ => "bool"
  | .list _ => "list"
  | .none => "NoneType"

/-- Python `dict.get(key)` on the association-list encoding of a dict. -/
def getArg (entries : List (String × PyVal)) (key : String) : Option PyVal :=
  match entries with
  | [] => Option.none
  | (k, v) :: rest => if k = key then some v else getArg rest key

/-- Opening curly bracket character. -/
def braceOpen : Char := Char.ofNat 123

/-- Closing curly bracket character. -/
def braceClose : Char := Char.ofNat 125

/-- JSON insignificant whitespace skipping. -/
def skipWs : List Char → List Char
  | [] => []
  | c :: t => if c = ' ' || c = '\t' || c = '\n' || c = '\r' then skipWs t else c :: t

/-- JSON string body after the opening quote, with the common escapes;
`\u` escapes are outside the model. -/
def parseStrLit (acc : List Char) : List Char → Option (String × List Char)
  | [] => Option.none
  | c :: t =>
    if c = '"' then some (String.mk acc.reverse, t)
    else if c = '\\' then
      match t with
      | [] => Option.none
      | e :: t2 =>
        if e = '"' then parseStrLit ('"' :: acc) t2
        else if e = '\\' then parseStrLit ('\\' :: acc) t2
        else if e = '/' then parseStrLit ('/' :: acc) t2
        else if e = 'n' then parseStrLit ('\n' :: acc) t2
        else if e = 't' then parseStrLit ('\t' :: acc) t2
        else if e = 'r' then parseStrLit ('\r' :: acc) t2
        else if e = 'b' then parseStrLit ('\x08' :: acc) t2
        else if e = 'f' then parseStrLit ('\x0C' :: acc) t2
        else Option.none
    else parseStrLit (c :: acc) t

/-- Decimal digits to a natural number. -/
def digitsToNat (ds : List Char) : Nat :=
  ds.foldl (fun n c => n * 10 + (c.toNat - 48)) 0

/-- JSON integer literal: optional sign, no leading zeros; a following
`.`, `e` or `E` would make it a float, which the model rejects. -/
def parseNum (cs : List Char) : Option (PyVal × List Char) :=
  let signed : Bool × List Char :=
    match cs with
    | c :: t => if c = '-' then (true, t) else (false, cs)
    | [] => (false, cs)
  let ds := signed.2.takeWhile Char.isDigit
  let rest := signed.2.dropWhile Char.isDigit
  if ds.isEmpty then Option.none
  else if 1 < ds.length && ds.headD 'x' = '0' then Option.none
  else
    let v : Int := (digitsToNat ds : Nat)
    let value : PyVal := .num (if signed.1 then -v else v)
    match rest with
    | r :: _ => if r = '.' || r = 'e' || r = 'E' then Option.none else some (value, rest)
    | [] => some (value, rest)

mutual

/-- JSON value, mirroring `json.loads` on the fragment without floats;
fuel bounds the recursion and is always ample when called via `jsonLoads`. -/
def parseVal : Nat → List Char → Option (PyVal × List Char)
  | 0, _ => Option.none
  | Nat.succ fuel, cs0 =>
    match skipWs cs0 with
    | [] => Option.none
    | c :: t =>
      if c = 'n' then
        match t with
        | 'u' :: 'l' :: 'l' :: r => some (.none, r)
        | _ => Option.none
      else if c = 't' then
        match t with
        | 'r' :: 'u' :: 'e' :: r => some (.bool true, r)
        | _ => Option.none
      else if c = 'f' then
        match t with
        | 'a' :: 'l' :: 's' :: 'e' :: r => some (.bool false, r)
        | _ => Option.none
      else if c = '"' then
        match parseStrLit [] t with
        | some (s, r) => some (.str s, r)
        | Option.none => Option.none
      else if c = '[' then
        match skipWs t with
        | d :: r =>
          if d = ']' then some (.list [], r)
          else
            match parseElems fuel (d :: r) with
            | some (vs, r2) => some (.list vs, r2)
            | Option.none => Option.none
        | [] => Option.none
      else if c = braceOpen then
        match skipWs t with
        | d :: r =>
          if d = braceClose then some (.dict [], r)
          else
            match parseEntries fuel (d :: r) with
            | some (kvs, r2) => some (.dict kvs, r2)
            | Option.none => Option.none
        | [] => Option.none
      else parseNum (c :: t)

/-- Comma-separated JSON array elements up to the closing bracket. -/
def parseElems : Nat → List Char → Option (List PyVal × List Char)
  | 0, _ => Option.none
  | Nat.succ fuel, cs =>
    match parseVal fuel cs with
    | Option.none => Option.none
    | some (v, r) =>
      match skipWs r with
      | d :: r2 =>
        if d = ',' then
          match parseElems fuel r2 with
          | some (vs, r3) => some (v :: vs, r3)
          | Option.none => Option.none
        else if d = ']' then some ([v], r2)
        else Option.none
      | [] => Option.none

/-- Comma-separated JSON object entries up to the closing bracket. -/
def parseEntries : Nat → List Char → Option (List (String × PyVal) × List Char)
  | 0, _ => Option.none
  | Nat.succ fuel, cs =>
    match skipWs cs with
    | c :: t =>
      if c = '"' then
        match parseStrLit [] t with
        | some (k, r) =>
          match skipWs r with
          | d :: r2 =>
            if d = ':' then
              match parseVal fuel r2 with
              | some (v, r3) =>
                match skipWs r3 with
                | e :: r5 =>
                  if e = ',' then
                    match parseEntries fuel r5 with
                    | some (kvs, r6) => some ((k, v) :: kvs, r6)
                    | Option.none => Option.none
                  else if e = braceClose then some ([(k, v)], r5)
                  else Option.none
                | [] => Option.none
              | Option.none => Option.none
            else Option.none
          | [] => Option.none
        | Option.none => Option.none
      else Option.none
    | [] => Option.none

end

/-- Python `json.loads` on the modelled fragment: a parse of the whole
input (surrounding whitespace allowed), `none` on malformed input. -/
def jsonLoads (s : String) : Option PyVal :=
  match parseVal (s.length + 2) s.data with
  | some (v, rest) => if (skipWs rest).isEmpty then some v else Option.none
  | Option.none => Option.none

/-- Association-list lookup with string keys (Python dict lookup). -/
def lookupAssoc {α : Type} : List (String × α) → String → Option α
  | [], _ => Option.none
  | (k, v) :: rest, key => if k = key then some v else lookupAssoc rest key

/-- Association-list update or insert with string keys (file write). -/
def setAssoc {α : Type} : List (String × α) → String → α → List (String × α)
  | [], k, v => [(k, v)]
  | (k0, v0) :: rest, k, v =>
    if k0 = k then (k, v) :: rest else (k0, v0) :: setAssoc rest k v

/-- Environment the tools run in: the readable text files (path to
content), and oracles for the operating-system facilities the claims do
not constrain pointwise — glob enumeration with mtimes and file kinds,
regular-expression compilation (a compiled pattern is its line-matching
function, `Option.none` when compilation fails), and subprocess execution
for the `bash` tool (its observable result or raised exception). -/
structure World where
  files : List (String × String)
  globResults : String → List String
  mtimeOf : String → Nat
  isFile : String → Bool
  regex : String → Option (String → Bool)
  bashRun : PyVal → Except String String

/-- Replace the content stored for `path`. -/
def updateFile (w : World) (path content : String) : World :=
  { w with files := setAssoc w.files path content }

/-- Line rendering of the `read` tool from an integer offset: Python
`f"(offset + idx + 1):4| (line)"` over the enumerated selection. -/
def renderFrom (k : Int) : List String → List String
  | [] => []
  | l :: ls => (padWidth4 (toString (k + 1)) ++ "| " ++ l) :: renderFrom (k + 1) ls

/-- The `read` tool (nanocode.py lines 63-68): split the file into lines,
slice by `offset`/`limit`, and render each selected line with a
right-aligned line number. Raised exceptions (missing key, missing file,
bad argument type) are `Except.error`. -/
def read (args : PyVal) (w : World) : Except String String × World :=
  match args with
  | .dict m =>
    match getArg m "path" with
    | Option.none => (.error "\x27path\x27", w)
    | some (.str path) =>
      match lookupAssoc w.files path with
      | Option.none =>
        (.error ("[Errno 2] No such file or directory: \x27" ++ path ++ "\x27"), w)
      | some content =>
        let lines := pyLines content
        match (match getArg m "offset" with
               | Option.none => Except.ok (0 : Int)
               | some (.num n) => Except.ok n
               | some (.bool b) => Except.ok (if b then (1 : Int) else 0)
               | some v => Except.error ("slice indices must be integers, not " ++ pyTypeName v)) with
        | .error e => (.error e, w)
        | .ok offset =>
          match (match getArg m "limit" with
                 | Option.none => Except.ok (lines.length : Int)
                 | some (.num n) => Except.ok n
                 | some (.bool b) => Except.ok (if b then (1 : Int) else 0)
                 | some v => Except.error ("slice indices must be integers, not " ++ pyTypeName v)) with
          | .error e => (.error e, w)
          | .ok limit =>
            (.ok (String.join (renderFrom offset (pySlice lines offset (offset + limit)))), w)
    | some v => (.error ("expected str, bytes or os.PathLike object, not " ++ pyTypeName v), w)
  | v => (.error ("\x27" ++ pyTypeName v ++ "\x27 object is not subscriptable"), w)

/-- The `write` tool (nanocode.py lines 71-74): truncate-open then write.
Opening truncates before `args["content"]` is read, so a missing or
non-string content leaves the file emptied, as in the source. -/
def write (args : PyVal) (w : World) : Except String String × World :=
  match args with
  | .dict m =>
    match getArg m "path" with
    | Option.none => (.error "\x27path\x27", w)
    | some (.str path) =>
      let w1 := updateFile w path ""
      match getArg m "content" with
      | Option.none => (.error "\x27content\x27", w1)
      | some (.str content) => (.ok "ok", updateFile w1 path content)
      | some v => (.error ("write() argument must be str, not " ++ pyTypeName v), w1)
    | some v => (.error ("expected str, bytes or os.PathLike object, not " ++ pyTypeName v), w)
  | v => (.error ("\x27" ++ pyTypeName v ++ "\x27 object is not subscriptable"), w)

/-- The `edit` tool (nanocode.py lines 77-90): in-band `error:` strings for
an absent `old` and for a non-unique `old` without `all`; otherwise
replace (first occurrence, or all of them under `all`) and write back. -/
def edit (args : PyVal) (w : World) : Except String String × World :=
  match args with
  | .dict m =>
    match getArg m "path" with
    | Option.none => (.error "\x27path\x27", w)
    | some (.str path) =>
      match lookupAssoc w.files path with
      | Option.none =>
        (.error ("[Errno 2] No such file or directory: \x27" ++ path ++ "\x27"), w)
      | some text =>
        match getArg m "old" with
        | Option.none => (.error "\x27old\x27", w)
        | some oldv =>
          match getArg m "new" with
          | Option.none => (.error "\x27new\x27", w)
          | some newv =>
            match oldv with
            | .str old =>
              if !pyContainsS text old then (.ok "error: old_string not found", w)
              else
                let count := pyCountS text old
                let allFlag :=
                  match getArg m "all" with
                  | some v => pyTruthy v
                  | Option.none => false
                if !allFlag && 1 < count then
                  (.ok ("error: old_string appears " ++ toString count ++
                    " times, must be unique (use all=true)"), w)
                else
                  match newv with
                  | .str nw =>
                    let replacement :=
                      if allFlag then pyReplaceAllS text old nw
                      else pyReplaceFirstS text old nw
                    (.ok "ok", updateFile w path replacement)
                  | v => (.error ("replace() argument 2 must be str, not " ++ pyTypeName v), w)
            | v =>
              (.error ("\x27in <string>\x27 requires string as left operand, not " ++
                pyTypeName v), w)
    | some v => (.error ("expected str, bytes or os.PathLike object, not " ++ pyTypeName v), w)
  | v => (.error ("\x27" ++ pyTypeName v ++ "\x27 object is not subscriptable"), w)

/-- Sort key from nanocode.py line 98: mtime for files, `0` for anything
that is not a file (directories). -/
def sortKey (w : World) (f : String) : Nat :=
  if w.isFile f then w.mtimeOf f else 0

/-- Insert into a descending-by-key list, after entries of equal key, as a
stable descending sort does. -/
def insertDescBy {α : Type} (key : α → Nat) (x : α) : List α → List α
  | [] => [x]
  | y :: ys => if key y < key x then x :: y :: ys else y :: insertDescBy key x ys

/-- Python `sorted(l, key, reverse=True)`: stable descending sort. -/
def sortDescBy {α : Type} (key : α → Nat) (l : List α) : List α :=
  l.foldl (fun acc x => insertDescBy key x acc) []

/-- Python `"\n".join(items)`: the items separated by newlines. -/
def joinNL : List String → String
  | [] => ""
  | [x] => x
  | x :: y :: rest => x ++ "\n" ++ joinNL (y :: rest)

/-- Python `"\n".join(items) or "none"`: the join, or the `none` marker
when the joined string is empty (falsy). -/
def joinOrNone (l : List String) : String :=
  let s := joinNL l
  if s == "" then "none" else s

/-- The `glob` tool (nanocode.py lines 93-101): build the pattern with the
doubled-slash collapse, enumerate, sort by descending mtime with
directories keyed `0`, and join (or the `none` marker when empty). -/
def glob (args : PyVal) (w : World) : Except String String × World :=
  match args with
  | .dict m =>
    match (match getArg m "path" with
           | Option.none => Except.ok "."
           | some (.str p) => Except.ok p
           | some v => Except.error ("unsupported operand type for +: " ++ pyTypeName v)) with
    | .error e => (.error e, w)
    | .ok p =>
      match getArg m "pat" with
      | Option.none => (.error "\x27pat\x27", w)
      | some (.str pat) =>
        let pattern := pyReplaceAllS (p ++ "/" ++ pat) "//" "/"
        (.ok (joinOrNone (sortDescBy (sortKey w) (w.globResults pattern))), w)
      | some v =>
        (.error ("can only concatenate str (not " ++ pyTypeName v ++ ") to str"), w)
  | v => (.error ("\x27" ++ pyTypeName v ++ "\x27 object has no attribute \x27get\x27"), w)

/-- Lines of one file enumerated from 1, as Python `enumerate(open(f), 1)`. -/
def numberLines (k : Nat) : List String → List (Nat × String)
  | [] => []
  | l :: ls => (k, l) :: numberLines (k + 1) ls

/-- Matches of one opened file for `grep`: `filepath:line_number:content`
with the line right-stripped, in line order. -/
def grepHitsFile (matcher : String → Bool) (fp : String) (content : String) : List String :=
  ((numberLines 1 (pyLines content)).filter (fun p => matcher p.2)).map
    (fun p => fp ++ ":" ++ toString p.1 ++ ":" ++ pyRstrip p.2)

/-- All grep matches in file-enumeration then line order; paths that are
not readable text files (directories, binaries, permission errors) are
silently skipped, as the source's bare `except` does. -/
def grepHits (w : World) (matcher : String → Bool) (files : List String) : List String :=
  files.flatMap (fun fp =>
    match lookupAssoc w.files fp with
    | Option.none => []
    | some content => grepHitsFile matcher fp content)

/-- The `grep` tool (nanocode.py lines 104-114): compile the pattern,
enumerate `path + "/**"`, scan every openable file line by line, keep the
first 50 matches and join (or the `none` marker when empty). -/
def grep (args : PyVal) (w : World) : Except String String × World :=
  match args with
  | .dict m =>
    match getArg m "pat" with
    | Option.none => (.error "\x27pat\x27", w)
    | some (.str pat) =>
      match w.regex pat with
      | Option.none => (.error ("error compiling pattern: " ++ pat), w)
      | some matcher =>
        match (match getArg m "path" with
               | Option.none => Except.ok "."
               | some (.str p) => Except.ok p
               | some v => Except.error ("can only concatenate str (not " ++
                   pyTypeName v ++ ") to str")) with
        | .error e => (.error e, w)
        | .ok p =>
          (.ok (joinOrNone ((grepHits w matcher (w.globResults (p ++ "/**"))).take 50)), w)
    | some v =>
      (.error ("first argument must be string or compiled pattern, not " ++ pyTypeName v), w)
  | v => (.error ("\x27" ++ pyTypeName v ++ "\x27 object is not subscriptable"), w)

/-- The `bash` tool at the registry boundary (nanocode.py lines 117-136):
the subprocess interaction is the `World.bashRun` oracle giving the
observable result string or the raised exception; the internal
drain-then-wait loop is modelled separately by `drainLoop`/`bashRunModel`. -/
def bash (args : PyVal) (w : World) : Except String String × World :=
  match args with
  | .dict m =>
    match getArg m "cmd" with
    | Option.none => (.error "\x27cmd\x27", w)
    | some v => (w.bashRun v, w)
  | v => (.error ("\x27" ++ pyTypeName v ++ "\x27 object is not subscriptable"), w)

/-- The registry (nanocode.py lines 141-172): tool name to description,
parameter spec and implementation. -/
def TOOLS : List (String × (String × List (String × String) ×
    (PyVal → World → Except String String × World))) :=
  [("read", ("Read file with line numbers (file path, not directory)",
     [("path", "string"), ("offset", "number?"), ("limit", "number?")], read)),
   ("write", ("Write content to file",
     [("path", "string"), ("content", "string")], write)),
   ("edit", ("Replace old with new in file (old must be unique unless all=true)",
     [("path", "string"), ("old", "string"), ("new", "string"), ("all", "boolean?")], edit)),
   ("glob", ("Find files by pattern, sorted by mtime",
     [("pat", "string"), ("path", "string?")], glob)),
   ("grep", ("Search files for regex pattern",
     [("pat", "string"), ("path", "string?")], grep)),
   ("bash", ("Run shell command",
     [("cmd", "string")], bash))]

/-- Dispatch (nanocode.py lines 175-179): look the name up in `TOOLS`
(a missing name raises `KeyError`, whose text is the quoted name) and call
the implementation; any raised failure is converted to an in-band string
`error: <message>`. -/
def run_tool (name : String) (args : PyVal) (w : World) : String × World :=
  match lookupAssoc TOOLS name with
  | Option.none => ("error: \x27" ++ name ++ "\x27", w)
  | some entry =>
    match entry.2.2 args w with
    | (.ok s, w2) => (s, w2)
    | (.error e, w2) => ("error: " ++ e, w2)

/-- Argument normalization (nanocode.py lines 244-254): a dict passes
through, a string is JSON-decoded (whatever shape results), `None` becomes
the empty dict, anything else is an argument error. The Python pair
`(args, error)` is an `Except`. -/
def normalize_tool_args : PyVal → Except String PyVal
  | .dict m => .ok (.dict m)
  | .str s =>
    match jsonLoads s with
    | some v => .ok v
    | Option.none => .error ("error: tool arguments not valid JSON: " ++ s)
  | .none => .ok (.dict [])
  | v => .error ("error: tool arguments must be object, got " ++ pyTypeName v)

/-- One tool call of the main loop body (nanocode.py lines 316-320):
normalize the raw arguments; an argument error becomes the result without
dispatching, otherwise dispatch through the registry. -/
def execCall (name : String) (args : PyVal) (w : World) : String × World :=
  match normalize_tool_args args with
  | .error e => (e, w)
  | .ok a => run_tool name a w

/-- A `function_call` output with the `.get` defaults of the loop applied:
`id` and `name` default to `""`, `arguments` to the empty dict. -/
structure ToolCall where
  id : String
  name : String
  arguments : PyVal

/-- One output of a service response: a text block, a function call, or an
unrecognized type the loop ignores. -/
inductive Output where
  | text (content : String)
  | functionCall (call : ToolCall)
  | other

/-- Response handling (nanocode.py lines 265-273): texts are printed,
function calls are collected in order. -/
def handle_outputs : List Output → List ToolCall
  | [] => []
  | .functionCall c :: rest => c :: handle_outputs rest
  | _ :: rest => handle_outputs rest

/-- A `function_result` record sent back to the service. -/
structure ToolResult where
  name : String
  call_id : String
  result : String

/-- The `ExecutingTools` phase (nanocode.py lines 307-336): each collected
call is normalized and dispatched in order, threading the world, and its
record is appended to `tool_results`. -/
def processCalls : List ToolCall → World → List ToolResult × World
  | [], w => ([], w)
  | c :: rest, w =>
    let r := execCall c.name c.arguments w
    let t := processCalls rest r.2
    (⟨c.name, c.id, r.1⟩ :: t.1, t.2)

/-- The input payload of the follow-up request (nanocode.py line 338-342):
exactly the batched tool results of this turn. -/
def nextRequestInput (outputs : List Output) (w : World) : List ToolResult :=
  (processCalls (handle_outputs outputs) w).1

/-- Whether an output is a function call. -/
def isFunctionCall : Output → Bool
  | .functionCall _ => true
  | _ => false

/-- The bash drain loop (nanocode.py lines 124-131) over the observable
readline/poll history: each event is the string `readline` returned and
whether `poll()` reported the process exited at that moment. The loop
accumulates non-empty lines, breaks when an empty read coincides with an
exited process, and `Option.none` means the trace ended with the loop
still running (readline still blocking). -/
def drainLoop : List (String × Bool) → List String → Option (List String)
  | [], _ => Option.none
  | (line, exited) :: rest, acc =>
    if line = "" then (if exited then some acc else drainLoop rest acc)
    else drainLoop rest (acc ++ [line])

/-- The whole bash body (nanocode.py lines 117-136) over a readline/poll
trace: after the drain loop breaks, `proc.wait(timeout=30)` either returns
(`exitsWithin30 = true`) or raises `TimeoutExpired`, in which case the
process is killed and the marker line is appended; then the accumulated
output is stripped, with the `(empty)` placeholder for no output. -/
def bashRunModel (events : List (String × Bool)) (exitsWithin30 : Bool) : Option String :=
  match drainLoop events [] with
  | Option.none => Option.none
  | some acc =>
    let acc2 := if exitsWithin30 then acc else acc ++ ["\n(timed out after 30s)"]
    let s := pyStrip (String.join acc2)
    some (if s == "" then "(empty)" else s)

theorem interList_pair (sep p q : List Char) :
    interList sep [p, q] = p ++ sep ++ q := rfl

/-- C3: for a file content in which `old` occurs exactly once, `edit`
replaces that occurrence by `new` and writes the file back byte-identical
elsewhere; and with a truthy `all` and `old` occurring `k ≥ 1` times, all
`k` occurrences are replaced — the content splits as `k + 1` parts
intercalated with `old`, and the written file is the same parts
intercalated with `new`. -/
theorem edit_replaces_occurrences
    (w : World) (path content old nw : String) (a : PyVal)
    (hfile : lookupAssoc w.files path = some content) :
    (pyCountS content old = 1 →
      ∃ x y, content.data = x ++ old.data ++ y ∧
        edit (.dict [("path", .str path), ("old", .str old), ("new", .str nw), ("all", a)]) w
          = (.ok "ok", updateFile w path (String.mk (x ++ nw.data ++ y)))) ∧
    (pyTruthy a = true → 1 ≤ pyCountS content old →
      ∃ parts : List (List Char), parts.length = pyCountS content old + 1 ∧
        content.data = interList old.data parts ∧
        edit (.dict [("path", .str path), ("old", .str old), ("new", .str nw), ("all", a)]) w
          = (.ok "ok", updateFile w path (String.mk (interList nw.data parts)))) := by
  have hedit : ∀ hc : pyContainsS content old = true, ∀ hk : (1 < pyCountS content old → pyTruthy a = true),
      edit (.dict [("path", .str path), ("old", .str old), ("new", .str nw), ("all", a)]) w
        = (.ok "ok", updateFile w path
            (if pyTruthy a then pyReplaceAllS content old nw else pyReplaceFirstS content old nw)) := by
    intro hc hk
    by_cases ht : pyTruthy a = true
    · simp only [edit, getArg, String.reduceEq, reduceIte, hfile, hc, ht]
      simp
    · have ht2 : pyTruthy a = false := Bool.eq_false_iff.2 ht
      have hcount : ¬(1 < pyCountS content old) := fun h => ht (hk h)
      simp only [edit, getArg, String.reduceEq, reduceIte, hfile, hc, ht2]
      simp [hcount]
  constructor
  · intro h1
    have hc : pyContainsS content old = true :=
      pyContains_of_count_pos content.data.length content.data old.data (Nat.le_refl _)
        (by rw [← pyCountS, h1]; exact Nat.one_pos)
    have hk : 1 < pyCountS content old → pyTruthy a = true := by
      intro h; rw [h1] at h; exact absurd h (by omega)
    by_cases ht : pyTruthy a = true
    · obtain ⟨parts, hlen, hsplit, hall⟩ :=
        pyReplaceAll_decomp content.data.length content.data old.data nw.data (Nat.le_refl _)
      rw [← pyCountS, h1] at hlen
      match parts, hlen with
      | [p, q], _ =>
        refine ⟨p, q, by simpa [interList_pair] using hsplit, ?_⟩
        rw [hedit hc hk]
        simp [ht, pyReplaceAllS, hall, interList_pair]
    · obtain ⟨x, y, hsplit, hfirst⟩ := pyReplaceFirst_decomp content.data old.data nw.data hc
      refine ⟨x, y, hsplit, ?_⟩
      rw [hedit hc hk]
      simp [Bool.eq_false_iff.2 ht, pyReplaceFirstS, hfirst]
  · intro ht h1
    have hc : pyContainsS content old = true :=
      pyContains_of_count_pos content.data.length content.data old.data (Nat.le_refl _) h1
    obtain ⟨parts, hlen, hsplit, hall⟩ :=
      pyReplaceAll_decomp content.data.length content.data old.data nw.data (Nat.le_refl _)
    refine ⟨parts, hlen, hsplit, ?_⟩
    rw [hedit hc (fun _ => ht)]
    simp [ht, pyReplaceAllS, hall]

theorem error_append_ne_ok (rest : String) : "error: " ++ rest ≠ "ok" := by
  intro h
  have hlen := congrArg String.length h
  rw [String.length_append] at hlen
  have h7 : ("error: " : String).length = 7 := rfl
  have h2 : ("ok" : String).length = 2 := rfl
  omega

/-- C4: with the file readable and string arguments, `edit` returns an
in-band `error: ` string and leaves the world unchanged exactly when `old`
is absent from the content, or occurs more than once while `all` is not
truthy; in the non-unique case the error string is the message carrying
the literal decimal count. -/
theorem edit_error_conditions
    (w : World) (path content old nw : String) (a : PyVal)
    (hfile : lookupAssoc w.files path = some content) :
    ((∃ rest, edit (.dict [("path", .str path), ("old", .str old), ("new", .str nw),
        ("all", a)]) w = (.ok ("error: " ++ rest), w)) ↔
      (pyContainsS content old = false ∨
        (pyTruthy a = false ∧ 1 < pyCountS content old))) ∧
    (pyTruthy a = false → 1 < pyCountS content old →
      edit (.dict [("path", .str path), ("old", .str old), ("new", .str nw),
        ("all", a)]) w =
      (.ok ("error: " ++ ("old_string appears " ++ toString (pyCountS content old) ++
        " times, must be unique (use all=true)")), w)) := by
  have hnotfound : pyContainsS content old = false →
      edit (.dict [("path", .str path), ("old", .str old), ("new", .str nw),
        ("all", a)]) w = (.ok "error: old_string not found", w) := by
    intro hc
    simp only [edit, getArg, String.reduceEq, reduceIte, hfile, hc]
    simp
  have hambig : pyContainsS content old = true → pyTruthy a = false →
      1 < pyCountS content old →
      edit (.dict [("path", .str path), ("old", .str old), ("new", .str nw),
        ("all", a)]) w =
      (.ok ("error: old_string appears " ++ toString (pyCountS content old) ++
        " times, must be unique (use all=true)"), w) := by
    intro hc ht hcount
    simp only [edit, getArg, String.reduceEq, reduceIte, hfile, hc, ht]
    simp [hcount]
  have hok : pyContainsS content old = true →
      (pyTruthy a = true ∨ ¬(1 < pyCountS content old)) →
      edit (.dict [("path", .str path), ("old", .str old), ("new", .str nw),
        ("all", a)]) w =
      (.ok "ok", updateFile w path
        (if pyTruthy a then pyReplaceAllS content old nw
         else pyReplaceFirstS content old nw)) := by
    intro hc hcase
    by_cases ht : pyTruthy a = true
    · simp only [edit, getArg, String.reduceEq, reduceIte, hfile, hc, ht]
      simp
    · have hcount : ¬(1 < pyCountS content old) := by
        rcases hcase with h | h
        · exact absurd h ht
        · exact h
      simp only [edit, getArg, String.reduceEq, reduceIte, hfile, hc,
        Bool.eq_false_iff.2 ht]
      simp [hcount]
  have hmsg : ∀ t s : String, ("error: " : String) ++ ("old_string appears " ++ t ++ s) =
      "error: old_string appears " ++ t ++ s := by
    intro t s
    rw [← String.append_assoc, ← String.append_assoc]
    exact rfl
  constructor
  · constructor
    · rintro ⟨rest, hres⟩
      by_cases hc : pyContainsS content old = true
      · by_cases hcase : pyTruthy a = false ∧ 1 < pyCountS content old
        · exact Or.inr hcase
        · exfalso
          have hsplit : pyTruthy a = true ∨ ¬(1 < pyCountS content old) := by
            by_cases ht : pyTruthy a = true
            · exact Or.inl ht
            · refine Or.inr (fun hcount => hcase ⟨Bool.eq_false_iff.2 ht, hcount⟩)
          rw [hok hc hsplit] at hres
          have h1 : ("ok" : String) = "error: " ++ rest := by
            have h2 := congrArg Prod.fst hres
            simpa using h2
          exact error_append_ne_ok rest h1.symm
      · exact Or.inl (Bool.eq_false_iff.2 hc)
    · rintro (hc | ⟨ht, hcount⟩)
      · exact ⟨"old_string not found", hnotfound hc⟩
      · have hc : pyContainsS content old = true :=
          pyContains_of_count_pos content.data.length content.data old.data (Nat.le_refl _)
            (show 0 < pyCountS content old by omega)
        refine ⟨"old_string appears " ++ toString (pyCountS content old) ++
          " times, must be unique (use all=true)", ?_⟩
        rw [hambig hc ht hcount, ← hmsg]
  · intro ht hcount
    have hc : pyContainsS content old = true :=
      pyContains_of_count_pos content.data.length content.data old.data (Nat.le_refl _)
        (show 0 < pyCountS content old by omega)
    rw [hambig hc ht hcount, ← hmsg]

theorem quoted_error_shift (name : String) :
    ("error: \x27" ++ name) ++ "\x27" = "error: " ++ ("\x27" ++ (name ++ "\x27")) := by
  rw [← String.append_assoc]
  rw [show ("error: \x27" : String) = "error: " ++ "\x27" from rfl]
  rw [String.append_assoc, String.append_assoc]

/-- C1: dispatch never propagates a failure — an unregistered name yields
an `error: `-prefixed string (the caught `KeyError`), a raised failure
inside the looked-up implementation yields `error: ` followed by its
message (at the implementation's final state), and a normal return is
passed through unchanged. -/
theorem run_tool_never_raises (name : String) (args : PyVal) (w : World) :
    (lookupAssoc TOOLS name = Option.none →
      ∃ rest, run_tool name args w = ("error: " ++ rest, w)) ∧
    (∀ d ps impl, lookupAssoc TOOLS name = some (d, ps, impl) →
      (∀ e w2, impl args w = (.error e, w2) →
        run_tool name args w = ("error: " ++ e, w2)) ∧
      (∀ s w2, impl args w = (.ok s, w2) →
        run_tool name args w = (s, w2))) := by
  constructor
  · intro h
    refine ⟨"\x27" ++ (name ++ "\x27"), ?_⟩
    simp only [run_tool, h]
    rw [← quoted_error_shift]
  · intro d ps impl h
    constructor
    · intro e w2 himpl
      simp [run_tool, h, himpl]
    · intro s w2 himpl
      simp [run_tool, h, himpl]

theorem processCalls_ids : ∀ (calls : List ToolCall) (w : World),
    ((processCalls calls w).1).map ToolResult.call_id = calls.map ToolCall.id ∧
    ((processCalls calls w).1).length = calls.length := by
  intro calls
  induction calls with
  | nil => intro w; exact ⟨rfl, rfl⟩
  | cons c rest ih =>
    intro w
    have h := ih (execCall c.name c.arguments w).2
    simp [processCalls, h.1, h.2]

theorem handle_outputs_count : ∀ outputs : List Output,
    (handle_outputs outputs).length = (outputs.filter isFunctionCall).length := by
  intro outputs
  induction outputs with
  | nil => rfl
  | cons o rest ih =>
    cases o with
    | text s => simpa [handle_outputs, isFunctionCall] using ih
    | functionCall c => simpa [handle_outputs, isFunctionCall] using ih
    | other => simpa [handle_outputs, isFunctionCall] using ih

/-- C2: a response with `n` function-call outputs produces exactly `n`
tool results — the batch sent as the next request's input has one record
per collected call, with `call_id` equal to that call's id, in call
order. -/
theorem tool_results_match_calls (outputs : List Output) (w : World) :
    (nextRequestInput outputs w).length = (handle_outputs outputs).length ∧
    (nextRequestInput outputs w).map ToolResult.call_id =
      (handle_outputs outputs).map ToolCall.id ∧
    (handle_outputs outputs).length = (outputs.filter isFunctionCall).length := by
  refine ⟨(processCalls_ids (handle_outputs outputs) w).2,
    (processCalls_ids (handle_outputs outputs) w).1,
    handle_outputs_count outputs⟩

/-- C5: argument normalization passes a dict through unchanged, decodes a
string (a decodable string normalizes to its decoded value; an
undecodable one makes the call's result the argument error with the world
untouched — the tool is never invoked), maps `None` to the empty dict,
and rejects every other shape with an argument error. -/
theorem normalize_tool_args_cases :
    (∀ m, normalize_tool_args (.dict m) = .ok (.dict m)) ∧
    (∀ s v, jsonLoads s = some v → normalize_tool_args (.str s) = .ok v) ∧
    (∀ s name w, jsonLoads s = Option.none →
      execCall name (.str s) w = ("error: tool arguments not valid JSON: " ++ s, w)) ∧
    (normalize_tool_args PyVal.none = .ok (.dict [])) ∧
    (∀ n, normalize_tool_args (.num n) =
      .error ("error: tool arguments must be object, got int")) ∧
    (∀ b, normalize_tool_args (.bool b) =
      .error ("error: tool arguments must be object, got bool")) ∧
    (∀ xs, normalize_tool_args (.list xs) =
      .error ("error: tool arguments must be object, got list")) := by
  refine ⟨fun m => rfl, ?_, ?_, rfl, fun n => rfl, fun b => rfl, fun xs => rfl⟩
  · intro s v h
    simp [normalize_tool_args, h]
  · intro s name w h
    simp [execCall, normalize_tool_args, h]

/-- C10: a string-encoded payload that is valid JSON but not an object
(here `"42"`) normalizes successfully and is handed to the dispatched
tool as-is, while the same value arriving unencoded is rejected with a
shape error — the object check never applies to the result of decoding a
string. -/
theorem normalize_string_bypasses_shape_check :
    normalize_tool_args (.str "42") = .ok (.num 42) ∧
    normalize_tool_args (.num 42) =
      .error ("error: tool arguments must be object, got int") ∧
    (∀ name w, execCall name (.str "42") w = run_tool name (.num 42) w) := by
  exact ⟨rfl, rfl, fun name w => rfl⟩

theorem length_pos_of_ne_empty {s : String} (h : s ≠ "") : 0 < s.length := by
  cases s with
  | mk data =>
    cases data with
    | nil => exact absurd rfl h
    | cons c t => simp [String.length]

theorem joinNL_head_le : ∀ (x : String) (rest : List String),
    x.length ≤ (joinNL (x :: rest)).length := by
  intro x rest
  cases rest with
  | nil => exact Nat.le_refl _
  | cons y ys =>
    simp only [joinNL, String.length_append]
    omega

theorem joinOrNone_of_ne : ∀ (l : List String), l ≠ [] → (∀ x ∈ l, x ≠ "") →
    joinOrNone l = joinNL l := by
  intro l hne hmem
  cases l with
  | nil => exact absurd rfl hne
  | cons x rest =>
    have hx : 0 < x.length := length_pos_of_ne_empty (hmem x (List.mem_cons_self x rest))
    have hlen : 0 < (joinNL (x :: rest)).length :=
      Nat.lt_of_lt_of_le hx (joinNL_head_le x rest)
    have hne2 : joinNL (x :: rest) ≠ "" := by
      intro h0
      rw [h0] at hlen
      exact absurd hlen (by simp)
    simp [joinOrNone, hne2]

theorem grepHits_ne_empty (w : World) (matcher : String → Bool) (files : List String) :
    ∀ x ∈ grepHits w matcher files, x ≠ "" := by
  intro x hx
  simp only [grepHits, List.mem_flatMap] at hx
  obtain ⟨fp, hfp, hmem⟩ := hx
  match hc : lookupAssoc w.files fp with
  | Option.none => rw [hc] at hmem; simp at hmem
  | some content =>
    rw [hc] at hmem
    simp only [grepHitsFile, List.mem_map] at hmem
    obtain ⟨p, hp, rfl⟩ := hmem
    intro h0
    have hl := congrArg String.length h0
    rw [String.length_append, String.length_append, String.length_append,
      String.length_append] at hl
    have hcolon : (":" : String).length = 1 := rfl
    have hempty : ("" : String).length = 0 := rfl
    omega

/-- C7: with a compilable pattern, `grep` reports at most the first 50
matches (in file-enumeration then line order, formatted
`path:line_number:content`), and the literal `none` exactly when there
are no matches. -/
theorem grep_truncates_to_50
    (w : World) (pat pathArg : String) (matcher : String → Bool)
    (hre : w.regex pat = some matcher) :
    grep (.dict [("pat", .str pat), ("path", .str pathArg)]) w =
      (.ok (if grepHits w matcher (w.globResults (pathArg ++ "/**")) = [] then "none"
            else joinNL ((grepHits w matcher (w.globResults (pathArg ++ "/**"))).take 50)), w) ∧
    ((grepHits w matcher (w.globResults (pathArg ++ "/**"))).take 50).length ≤ 50 := by
  constructor
  · simp only [grep, getArg, String.reduceEq, reduceIte, hre]
    by_cases hhits : grepHits w matcher (w.globResults (pathArg ++ "/**")) = []
    · simp [hhits, joinOrNone, joinNL]
    · have hne : (grepHits w matcher (w.globResults (pathArg ++ "/**"))).take 50 ≠ [] := by
        cases hh : grepHits w matcher (w.globResults (pathArg ++ "/**")) with
        | nil => exact absurd hh hhits
        | cons a l => simp [List.take]
      have hmem : ∀ x ∈ (grepHits w matcher (w.globResults (pathArg ++ "/**"))).take 50,
          x ≠ "" := fun x hx =>
        grepHits_ne_empty w matcher (w.globResults (pathArg ++ "/**")) x (List.mem_of_mem_take hx)
      rw [joinOrNone_of_ne _ hne hmem]
      simp [hhits]
  · rw [List.length_take]
    exact Nat.min_le_left _ _

theorem insertDescBy_perm {α : Type} (key : α → Nat) (x : α) :
    ∀ l : List α, (insertDescBy key x l).Perm (x :: l) := by
  intro l
  induction l with
  | nil => exact List.Perm.refl _
  | cons y ys ih =>
    by_cases h : key y < key x
    · simp [insertDescBy, h]
    · simp only [insertDescBy, if_neg h]
      exact (ih.cons y).trans (List.Perm.swap x y ys)

theorem sortDescBy_perm_aux {α : Type} (key : α → Nat) :
    ∀ (l acc : List α), (l.foldl (fun acc x => insertDescBy key x acc) acc).Perm (acc ++ l) := by
  intro l
  induction l with
  | nil => intro acc; simp
  | cons x xs ih =>
    intro acc
    have h1 := ih (insertDescBy key x acc)
    have h2 : (insertDescBy key x acc ++ xs).Perm (acc ++ x :: xs) := by
      have h3 : (insertDescBy key x acc ++ xs).Perm ((x :: acc) ++ xs) :=
        (insertDescBy_perm key x acc).append_right xs
      exact h3.trans (List.perm_middle).symm
    rw [List.foldl_cons]
    exact h1.trans h2

theorem sortDescBy_perm {α : Type} (key : α → Nat) (l : List α) :
    (sortDescBy key l).Perm l := by
  simpa using sortDescBy_perm_aux key l []

theorem mem_insertDescBy {α : Type} {key : α → Nat} {x z : α} {l : List α}
    (h : z ∈ insertDescBy key x l) : z = x ∨ z ∈ l := by
  have := (insertDescBy_perm key x l).mem_iff.1 h
  simpa using this

theorem insertDescBy_sorted {α : Type} (key : α → Nat) (x : α) :
    ∀ l : List α, l.Pairwise (fun a b => key b ≤ key a) →
      (insertDescBy key x l).Pairwise (fun a b => key b ≤ key a) := by
  intro l
  induction l with
  | nil => intro _; simp [insertDescBy]
  | cons y ys ih =>
    intro hs
    rw [List.pairwise_cons] at hs
    by_cases h : key y < key x
    · simp only [insertDescBy, if_pos h]
      rw [List.pairwise_cons]
      refine ⟨?_, List.pairwise_cons.2 hs⟩
      intro z hz
      rcases List.mem_cons.1 hz with rfl | hz2
      · exact Nat.le_of_lt h
      · exact Nat.le_trans (hs.1 z hz2) (Nat.le_of_lt h)
    · simp only [insertDescBy, if_neg h]
      rw [List.pairwise_cons]
      refine ⟨?_, ih hs.2⟩
      intro z hz
      rcases mem_insertDescBy hz with rfl | hz2
      · exact Nat.le_of_not_lt h
      · exact hs.1 z hz2

theorem sortDescBy_sorted {α : Type} (key : α → Nat) (l : List α) :
    (sortDescBy key l).Pairwise (fun a b => key b ≤ key a) := by
  have haux : ∀ (xs acc : List α), acc.Pairwise (fun a b => key b ≤ key a) →
      (xs.foldl (fun acc x => insertDescBy key x acc) acc).Pairwise
        (fun a b => key b ≤ key a) := by
    intro xs
    induction xs with
    | nil => intro acc h; simpa using h
    | cons x rest ih =>
      intro acc h
      rw [List.foldl_cons]
      exact ih (insertDescBy key x acc) (insertDescBy_sorted key x acc h)
  exact haux l [] (by simp)

/-- C8: `glob` returns its matches one per line, in descending order of
the sort key (mtime for files, the minimal timestamp `0` for anything
that is not a file, i.e. directories), the literal `none` when the
enumeration is empty — so a missing path, for which the operating system
enumeration is empty, yields the `none` result rather than a failure. -/
theorem glob_sorted_output
    (w : World) (pat pathArg : String)
    (hne : ∀ p ∈ w.globResults (pyReplaceAllS (pathArg ++ "/" ++ pat) "//" "/"), p ≠ "") :
    (w.globResults (pyReplaceAllS (pathArg ++ "/" ++ pat) "//" "/") = [] →
      glob (.dict [("pat", .str pat), ("path", .str pathArg)]) w = (.ok "none", w)) ∧
    ∃ es, (w.globResults (pyReplaceAllS (pathArg ++ "/" ++ pat) "//" "/")).Perm es ∧
      es.Pairwise (fun a b => sortKey w b ≤ sortKey w a) ∧
      glob (.dict [("pat", .str pat), ("path", .str pathArg)]) w =
        (.ok (if es = [] then "none" else joinNL es), w) := by
  constructor
  · intro h
    simp only [glob, getArg, String.reduceEq, reduceIte, h]
    simp [sortDescBy, joinOrNone, joinNL]
  · refine ⟨sortDescBy (sortKey w) (w.globResults (pyReplaceAllS (pathArg ++ "/" ++ pat) "//" "/")),
      (sortDescBy_perm _ _).symm, sortDescBy_sorted _ _, ?_⟩
    simp only [glob, getArg, String.reduceEq, reduceIte]
    by_cases hs : sortDescBy (sortKey w)
        (w.globResults (pyReplaceAllS (pathArg ++ "/" ++ pat) "//" "/")) = []
    · simp [hs, joinOrNone, joinNL]
    · have hmem : ∀ x ∈ sortDescBy (sortKey w)
          (w.globResults (pyReplaceAllS (pathArg ++ "/" ++ pat) "//" "/")), x ≠ "" :=
        fun x hx => hne x ((sortDescBy_perm _ _).mem_iff.1 hx)
      rw [joinOrNone_of_ne _ hs hmem]
      simp [hs]

/-- Rendering of `read` as the specification words it: number every line
of the file by its 1-based position in the original file, then select the
`offset`/`limit` slice of the numbered lines. -/
def readNumbered (content : String) (offset limit : Int) : String :=
  String.join (pySlice (renderFrom 0 (pyLines content)) offset (offset + limit))

theorem renderFrom_length (k : Int) : ∀ l : List String,
    (renderFrom k l).length = l.length := by
  intro l
  induction l generalizing k with
  | nil => rfl
  | cons x t ih => simp [renderFrom, ih]

theorem renderFrom_take : ∀ (l : List String) (k : Int) (b : Nat),
    (renderFrom k l).take b = renderFrom k (l.take b) := by
  intro l
  induction l with
  | nil => intro k b; simp [renderFrom]
  | cons x t ih =>
    intro k b
    cases b with
    | zero => simp [renderFrom]
    | succ b2 => simp [renderFrom, List.take_succ_cons, ih]

theorem renderFrom_drop : ∀ (a : Nat) (l : List String) (k : Int),
    (renderFrom k l).drop a = renderFrom (k + (a : Int)) (l.drop a) := by
  intro a
  induction a with
  | zero => intro l k; simp
  | succ a2 ih =>
    intro l k
    cases l with
    | nil => simp [renderFrom]
    | cons x t =>
      rw [show renderFrom k (x :: t) = (padWidth4 (toString (k + 1)) ++ "| " ++ x) ::
        renderFrom (k + 1) t from rfl]
      rw [List.drop_succ_cons, List.drop_succ_cons, ih t (k + 1)]
      have harith : k + 1 + (a2 : Int) = k + ((a2 : Nat) + 1 : Nat) := by
        push_cast
        omega
      rw [harith]

theorem slice_render_comm (lines : List String) (offset limit : Int) (h : 0 ≤ offset) :
    pySlice (renderFrom 0 lines) offset (offset + limit) =
      renderFrom offset (pySlice lines offset (offset + limit)) := by
  have hnotneg : ¬(offset < 0) := by omega
  unfold pySlice
  rw [renderFrom_length]
  simp only [if_neg hnotneg]
  rw [renderFrom_take, renderFrom_drop]
  by_cases hle : offset.toNat ≤ lines.length
  · have hmin : min offset.toNat lines.length = offset.toNat := Nat.min_eq_left hle
    rw [hmin]
    have hcast : (0 : Int) + (offset.toNat : Int) = offset := by omega
    rw [hcast]
  · have hmin : min offset.toNat lines.length = lines.length := by omega
    rw [hmin]
    have hnil1 : ∀ hi : Nat, (lines.take hi).drop lines.length = [] := by
      intro hi
      apply List.drop_eq_nil_of_le
      rw [List.length_take]
      exact Nat.min_le_right _ _
    rw [hnil1]
    simp [renderFrom]

/-- Sample environment used by the concrete instantiations: one three-line
file. -/
def sampleWorld : World :=
  { files := [("f.txt", "a\nb\nc\n")]
    globResults := fun _ => []
    mtimeOf := fun _ => 0
    isFile := fun _ => false
    regex := fun _ => Option.none
    bashRun := fun _ => .ok "" }

/-- C9 (amended to nonnegative offsets): for a readable file and a
nonnegative offset, `read` returns exactly the slice of the file's lines
each rendered as a width-4 right-aligned line number, `"| "`, then the
line, where the numbers are the 1-based positions of those lines in the
original file; and an offset at or past the end of the file yields the
empty output rather than an error. -/
theorem read_numbers_original_positions
    (w : World) (path content : String) (offset limit : Int)
    (hfile : lookupAssoc w.files path = some content) (hoff : 0 ≤ offset) :
    read (.dict [("path", .str path), ("offset", .num offset), ("limit", .num limit)]) w
      = (.ok (readNumbered content offset limit), w) ∧
    (((pyLines content).length : Int) ≤ offset →
      read (.dict [("path", .str path), ("offset", .num offset), ("limit", .num limit)]) w
        = (.ok "", w)) := by
  have hmain : read (.dict [("path", .str path), ("offset", .num offset),
      ("limit", .num limit)]) w = (.ok (readNumbered content offset limit), w) := by
    simp only [read, getArg, String.reduceEq, reduceIte, hfile]
    rw [readNumbered, slice_render_comm (pyLines content) offset limit hoff]
  refine ⟨hmain, ?_⟩
  intro hpast
  rw [hmain]
  have hempty : readNumbered content offset limit = "" := by
    rw [readNumbered]
    unfold pySlice
    have hnotneg : ¬(offset < 0) := by omega
    simp only [if_neg hnotneg]
    rw [renderFrom_length]
    have hmin : min offset.toNat (pyLines content).length = (pyLines content).length := by
      omega
    rw [hmin]
    have hnil : ∀ tk : List String, tk.length ≤ (pyLines content).length →
        tk.drop (pyLines content).length = [] := by
      intro tk htk
      exact List.drop_eq_nil_of_le htk
    rw [hnil _ (by rw [List.length_take, renderFrom_length]; exact Nat.min_le_right _ _)]
    rfl
  rw [hempty]

/-- C9 counterexample: at the negative offset `-1` on a three-line file,
`read` numbers the selected line `0`, not its 1-based original position
`3` — the claim fails for negative offsets. -/
theorem read_negative_offset_counterexample :
    (read (.dict [("path", .str "f.txt"), ("offset", .num (-1)), ("limit", .num 4)])
      sampleWorld).1 = .ok "   0| c\n" ∧
    readNumbered "a\nb\nc\n" (-1) 4 = "   3| c\n" ∧
    (read (.dict [("path", .str "f.txt"), ("offset", .num (-1)), ("limit", .num 4)])
      sampleWorld).1 ≠ .ok (readNumbered "a\nb\nc\n" (-1) 4) := by
  refine ⟨rfl, rfl, ?_⟩
  intro h
  rw [show readNumbered "a\nb\nc\n" (-1) 4 = "   3| c\n" from rfl] at h
  have h0 : (read (.dict [("path", .str "f.txt"), ("offset", .num (-1)),
      ("limit", .num 4)]) sampleWorld).1 = .ok "   0| c\n" := rfl
  rw [h0] at h
  exact absurd (Except.ok.inj h) (by decide)

theorem drainLoop_breaks_only_on_exit :
    ∀ (events : List (String × Bool)) (acc acc2 : List String),
      drainLoop events acc = some acc2 → ∃ e ∈ events, e.1 = "" ∧ e.2 = true := by
  intro events
  induction events with
  | nil => intro acc acc2 h; simp [drainLoop] at h
  | cons e rest ih =>
    intro acc acc2 h
    obtain ⟨line, exited⟩ := e
    by_cases hl : line = ""
    · subst hl
      cases exited with
      | true => exact ⟨("", true), List.mem_cons_self _ _, rfl, rfl⟩
      | false =>
        simp only [drainLoop, if_pos rfl, Bool.false_eq_true, if_neg] at h
        obtain ⟨e2, hmem, hp⟩ := ih acc acc2 (by simpa using h)
        exact ⟨e2, List.mem_cons_of_mem _ hmem, hp⟩
    · simp only [drainLoop, if_neg hl] at h
      obtain ⟨e2, hmem, hp⟩ := ih (acc ++ [line]) acc2 h
      exact ⟨e2, List.mem_cons_of_mem _ hmem, hp⟩

/-- C6: the drain loop breaks only when `poll()` has reported the process
exited, so — since a process observed exited has certainly exited within
the subsequent 30-second wait — `proc.wait(timeout=30)` never raises and
the bash result is always the drained output rendered without the timeout
marker: the `(timed out after 30s)` branch is unreachable. The claimed
behaviour (forced termination and a trailing marker after 30 seconds) is
dead code; a command such as `sleep 40` blocks until the process exits on
its own and returns `(empty)` with no marker. -/
theorem bash_timeout_marker_unreachable
    (events : List (String × Bool)) (exitsWithin30 : Bool)
    (hwait : (∃ e ∈ events, e.1 = "" ∧ e.2 = true) → exitsWithin30 = true) :
    bashRunModel events exitsWithin30 =
      Option.map (fun acc =>
        let s := pyStrip (String.join acc)
        if s == "" then "(empty)" else s) (drainLoop events []) := by
  cases hd : drainLoop events [] with
  | none => simp [bashRunModel, hd]
  | some acc =>
    have hexit : exitsWithin30 = true :=
      hwait (drainLoop_breaks_only_on_exit events [] acc hd)
    simp [bashRunModel, hd, hexit]

/-- Sample outputs list: one text block and two function calls. -/
def sampleOutputs : List Output :=
  [Output.text "hi",
   Output.functionCall ⟨"call-1", "read", .dict [("path", .str "f.txt")]⟩,
   Output.functionCall ⟨"call-2", "nosuch", PyVal.none⟩]

/-- Sample environment for the grep instantiation: two readable files, an
enumeration listing both, and a compiled pattern matching every line. -/
def grepWorld : World :=
  { files := [("./a.txt", "x\nyx\n"), ("./b.txt", "z\n")]
    globResults := fun _ => ["./a.txt", "./b.txt"]
    mtimeOf := fun _ => 0
    isFile := fun _ => true
    regex := fun _ => some (fun _ => true)
    bashRun := fun _ => .ok "" }

/-- Sample environment for the glob instantiation: two files with
distinct mtimes. -/
def globWorld : World :=
  { files := []
    globResults := fun _ => ["old.txt", "new.txt"]
    mtimeOf := fun p => if p = "new.txt" then 10 else 1
    isFile := fun _ => true
    regex := fun _ => Option.none
    bashRun := fun _ => .ok "" }

theorem run_tool_never_raises_witness :
    lookupAssoc TOOLS "nosuch" = Option.none ∧
    ∃ rest, run_tool "nosuch" (.dict []) sampleWorld = ("error: " ++ rest, sampleWorld) :=
  ⟨rfl, (run_tool_never_raises "nosuch" (.dict []) sampleWorld).1 rfl⟩

theorem tool_results_match_calls_witness :
    (nextRequestInput sampleOutputs sampleWorld).length = 2 ∧
    (nextRequestInput sampleOutputs sampleWorld).map ToolResult.call_id =
      ["call-1", "call-2"] := by
  have h := tool_results_match_calls sampleOutputs sampleWorld
  exact ⟨by rw [h.1]; rfl, by rw [h.2.1]; rfl⟩

theorem edit_replaces_occurrences_witness :
    pyCountS "a\nb\nc\n" "b" = 1 ∧
    ∃ x y, ("a\nb\nc\n" : String).data = x ++ ("b" : String).data ++ y ∧
      edit (.dict [("path", .str "f.txt"), ("old", .str "b"), ("new", .str "X"),
        ("all", PyVal.none)]) sampleWorld
        = (.ok "ok", updateFile sampleWorld "f.txt"
            (String.mk (x ++ ("X" : String).data ++ y))) := by
  have hcount : pyCountS "a\nb\nc\n" "b" = 1 := by
    simp [pyCountS, pyCount, listPrefixOf]
  exact ⟨hcount,
    (edit_replaces_occurrences sampleWorld "f.txt" "a\nb\nc\n" "b" "X" PyVal.none rfl).1 hcount⟩

theorem edit_error_conditions_witness :
    pyTruthy PyVal.none = false ∧ 1 < pyCountS "a\nb\nc\n" "\n" ∧
    edit (.dict [("path", .str "f.txt"), ("old", .str "\n"), ("new", .str "X"),
      ("all", PyVal.none)]) sampleWorld =
      (.ok ("error: " ++ ("old_string appears " ++ toString (pyCountS "a\nb\nc\n" "\n") ++
        " times, must be unique (use all=true)")), sampleWorld) := by
  have hcount : 1 < pyCountS "a\nb\nc\n" "\n" := by
    have h3 : pyCountS "a\nb\nc\n" "\n" = 3 := by
      simp [pyCountS, pyCount, listPrefixOf]
    omega
  exact ⟨rfl, hcount,
    (edit_error_conditions sampleWorld "f.txt" "a\nb\nc\n" "\n" "X" PyVal.none rfl).2 rfl hcount⟩

theorem normalize_tool_args_cases_witness :
    jsonLoads "\x7b" = Option.none ∧
    execCall "read" (.str "\x7b") sampleWorld =
      ("error: tool arguments not valid JSON: " ++ "\x7b", sampleWorld) ∧
    jsonLoads "\x7b\"a\": 1\x7d" = some (.dict [("a", .num 1)]) ∧
    normalize_tool_args (.str "\x7b\"a\": 1\x7d") = .ok (.dict [("a", .num 1)]) :=
  ⟨rfl, normalize_tool_args_cases.2.2.1 "\x7b" "read" sampleWorld rfl, rfl,
   normalize_tool_args_cases.2.1 "\x7b\"a\": 1\x7d" (.dict [("a", .num 1)]) rfl⟩

theorem bash_timeout_marker_unreachable_witness :
    bashRunModel [("", true)] true = some "(empty)" := by
  have h := bash_timeout_marker_unreachable [("", true)] true (fun _ => rfl)
  rw [h]
  rfl

theorem grep_truncates_to_50_witness :
    ((grepHits grepWorld (fun _ => true) (grepWorld.globResults ("." ++ "/**"))).take 50).length
      ≤ 50 ∧
    grep (.dict [("pat", .str "x"), ("path", .str ".")]) grepWorld =
      (.ok "./a.txt:1:x\n./a.txt:2:yx\n./b.txt:1:z", grepWorld) := by
  have h := grep_truncates_to_50 grepWorld "x" "." (fun _ => true) rfl
  refine ⟨h.2, ?_⟩
  rw [h.1]
  rfl

theorem glob_sorted_output_witness :
    ∃ es, (globWorld.globResults (pyReplaceAllS ("." ++ "/" ++ "*") "//" "/")).Perm es ∧
      es.Pairwise (fun a b => sortKey globWorld b ≤ sortKey globWorld a) ∧
      glob (.dict [("pat", .str "*"), ("path", .str ".")]) globWorld =
        (.ok (if es = [] then "none" else joinNL es), globWorld) :=
  (glob_sorted_output globWorld "*" "."
    (by
      intro p hp
      have hlist : p ∈ ["old.txt", "new.txt"] := hp
      rcases List.mem_cons.1 hlist with rfl | h2
      · intro h0; exact absurd h0 (by decide)
      · rcases List.mem_cons.1 h2 with rfl | h3
        · intro h0; exact absurd h0 (by decide)
        · simp at h3)).2

theorem read_numbers_original_positions_witness :
    read (.dict [("path", .str "f.txt"), ("offset", .num 2), ("limit", .num 1)]) sampleWorld
      = (.ok (readNumbered "a\nb\nc\n" 2 1), sampleWorld) ∧
    readNumbered "a\nb\nc\n" 2 1 = "   3| c\n" :=
  ⟨(read_numbers_original_positions sampleWorld "f.txt" "a\nb\nc\n" 2 1 rfl
    (by decide)).1, rfl⟩

theorem normalize_string_bypasses_shape_check_witness :
    execCall "read" (.str "42") sampleWorld = run_tool "read" (.num 42) sampleWorld :=
  normalize_string_bypasses_shape_check.2.2 "read" sampleWorld

end Nanocode
